import Mathlib

/-!
Shallow embedding of the DNS message decoder in `src/structure.rs`
(the module actually compiled by `main.rs`), together with proofs about
the decoding algorithms: the bounds-checked cursor over the fixed
512-byte buffer, domain-name decompression with the 5-jump limit,
bit-field header decoding and record/packet decoding.

Modelling conventions:
* The 512-byte array `buf : [u8; 512]` is an immutable `Nat → Nat`
  (index ↦ byte value); the mutable `pos : usize` cursor is threaded
  explicitly.  Machine-integer truncation is written with an explicit
  `% 2^w` at the one place the source truncates (the u16 shift inside
  the TTL computation); everywhere else the source's values stay below
  the relevant width by construction.
* Fallible operations return `DecRes α`, carrying the result or the
  error together with the final cursor position (Rust mutates `self`
  through `&mut` even on the error path, so the position on error is
  observable).
* The `loop` of `read_qname` becomes a fuel-indexed recursion
  `readQnameLoop`; `readQnameLoop_total` proves the chosen fuel is
  never exhausted, which is the termination content of the source loop.
  The loop also exposes the source's local `jumps_performed` counter so
  that "the pointer chain requires k jumps" is expressible.
-/

/-- The byte array of `BytePacketBuffer`: value of the byte at each index. -/
abbrev Buf := Nat → Nat

/-- The two decode-time error kinds of the source (`bail!("End of buffer")`
and `bail!("max jumps exceeded")`). -/
inductive DnsError where
  | endOfBuffer
  | tooManyPointerJumps
deriving DecidableEq

/-- Result of a cursor-mutating operation: value or error, plus the final
cursor position (the position a failing Rust method leaves in `self.pos`). -/
inductive DecRes (α : Type) where
  | ok : α → Nat → DecRes α
  | err : DnsError → Nat → DecRes α
deriving DecidableEq

/-- A cursor-mutating decoder operation: position in, `DecRes` out. -/
abbrev DecM (α : Type) := Nat → DecRes α

/-- Sequencing of decoder operations: on error the error and its position
propagate, mirroring Rust's `?` operator on `&mut self` methods. -/
def bindM {α β : Type} (x : DecRes α) (f : α → DecM β) : DecRes β :=
  match x with
  | .ok a p => f a p
  | .err e p => .err e p

namespace BytePacketBuffer

/-- `BytePacketBuffer::read`: byte at the cursor, cursor advances by 1;
fails with `EndOfBuffer` when `pos >= 512` (cursor unmoved on failure). -/
def read (b : Buf) : DecM Nat := fun p =>
  if 512 ≤ p then .err .endOfBuffer p else .ok (b p) (p + 1)

/-- `BytePacketBuffer::read_u16`: two `read`s combined big-endian. -/
def read_u16 (b : Buf) : DecM Nat := fun p =>
  bindM (read b p) fun hi p =>
  bindM (read b p) fun lo p =>
  .ok ((hi <<< 8) ||| lo) p

/-- `BytePacketBuffer::get`: byte at an absolute position, cursor untouched;
fails with `EndOfBuffer` when `pos >= 512`. -/
def get (b : Buf) (pos : Nat) : Except DnsError Nat :=
  if 512 ≤ pos then .error .endOfBuffer else .ok (b pos)

/-- `BytePacketBuffer::get_range`: the `len` bytes starting at `start`,
cursor untouched; fails with `EndOfBuffer` when `start + len >= 512`. -/
def get_range (b : Buf) (start len : Nat) : Except DnsError (List Nat) :=
  if 512 ≤ start + len then .error .endOfBuffer
  else .ok ((List.range len).map fun i => b (start + i))

/-- Byte-wise model of `String::from_utf8_lossy(bytes).to_lowercase()` as the
source applies it to a label: ASCII uppercase folds to lowercase, other ASCII
bytes map to themselves, bytes ≥ 128 map to the replacement character
(the multi-byte UTF-8 grouping of the lossy conversion is approximated
byte-for-byte; no claim under verification inspects non-ASCII labels). -/
def lossyLowerByte (n : Nat) : Char :=
  if 65 ≤ n ∧ n ≤ 90 then Char.ofNat (n + 32)
  else if n < 128 then Char.ofNat n
  else Char.ofNat 65533

/-- Lossy lowercase decoding of a whole label. -/
def lossyLower (l : List Nat) : String := String.mk (l.map lossyLowerByte)

/-- The `loop` of `BytePacketBuffer::read_qname`, one constructor-step per
iteration, with the loop-local state as arguments: `pos` is the local
position, `sp` the outer cursor (`self.pos`), `jumped`/`jumps` the jump
bookkeeping, `out`/`delim` the accumulated name.  `maxJumps` is the
source's local `max_jumps` (instantiated with 5 in `read_qname`); the
returned `Nat` alongside the result is the final `jumps_performed`.
`fuel` bounds the number of iterations; `none` means fuel ran out
(`readQnameLoop_total` shows `qnameFuel` suffices). -/
def readQnameLoop (b : Buf) (maxJumps : Nat) :
    Nat → Nat → Nat → Bool → Nat → String → String →
    Option (DecRes String × Nat)
  | 0, _, _, _, _, _, _ => none
  | fuel + 1, pos, sp, jumped, jumps, out, delim =>
    if maxJumps < jumps then some (.err .tooManyPointerJumps sp, jumps)
    else
      match get b pos with
      | .error e => some (.err e sp, jumps)
      | .ok len =>
        if len &&& 0xC0 = 0xC0 then
          -- the first jump seeks the outer cursor to `pos + 2` BEFORE the
          -- second pointer byte is read, so a failing `get (pos + 1)` still
          -- leaves the cursor committed past the two pointer bytes
          match get b (pos + 1) with
          | .error e => some (.err e (if jumped then sp else pos + 2), jumps)
          | .ok b2 =>
            readQnameLoop b maxJumps fuel (((len ^^^ 0xC0) <<< 8) ||| b2)
              (if jumped then sp else pos + 2) true (jumps + 1) out delim
        else
          if len = 0 then
            -- terminating zero byte; without a jump the cursor seeks here
            some (.ok out (if jumped then sp else pos + 1), jumps)
          else
            match get_range b (pos + 1) len with
            | .error e => some (.err e sp, jumps)
            | .ok lab =>
              readQnameLoop b maxJumps fuel (pos + 1 + len) sp jumped jumps
                (out ++ delim ++ lossyLower lab) "."

/-- Iteration budget for `readQnameLoop`; `readQnameLoop_total` proves it is
never exhausted for the jump caps used here. -/
def qnameFuel : Nat := 8192

/-- `read_qname` instrumented with the jump counter, with the source's
`max_jumps` left as a parameter. -/
def readQnameCnt (b : Buf) (maxJumps : Nat) (p : Nat) :
    Option (DecRes String × Nat) :=
  readQnameLoop b maxJumps qnameFuel p p false 0 "" ""

/-- `BytePacketBuffer::read_qname` (with the source's `max_jumps = 5`):
decoded name or error, plus the final `self.pos`.  The `none` default is
unreachable by `readQnameLoop_total`. -/
def read_qname (b : Buf) : DecM String := fun p =>
  match readQnameCnt b 5 p with
  | some (r, _) => r
  | none => .err .endOfBuffer p

end BytePacketBuffer

/-- `ResultCode`: the response-code enumeration. -/
inductive ResultCode where
  | NOERROR | FORMERR | SERVFAIL | NXDOMAIN | NOTIMP
  | REFUSED | YXDOMAIN | XRRSET | NOTAUTH | NOTZONE
deriving DecidableEq

/-- `ResultCode::from_num`: values 1–9 map to their codes, everything else
collapses to `NOERROR`. -/
def ResultCode.from_num (n : Nat) : ResultCode :=
  match n with
  | 1 => .FORMERR
  | 2 => .SERVFAIL
  | 3 => .NXDOMAIN
  | 4 => .NOTIMP
  | 5 => .REFUSED
  | 6 => .YXDOMAIN
  | 7 => .XRRSET
  | 8 => .NOTAUTH
  | 9 => .NOTZONE
  | _ => .NOERROR

/-- `DnsHeader`: the decoded 12-byte header. -/
structure DnsHeader where
  id : Nat
  query_res : Bool
  opcode : Nat
  auth_ans : Bool
  trunc_msg : Bool
  rec_des : Bool
  rec_ava : Bool
  z : Nat
  rcode : ResultCode
  qdcount : Nat
  anscount : Nat
  nscount : Nat
  arcount : Nat
deriving DecidableEq

/-- `DnsHeader::read`: id, the two flag bytes decoded bit-field by
bit-field, then the four counts. -/
def DnsHeader.read (b : Buf) : DecM DnsHeader := fun p =>
  bindM (BytePacketBuffer.read_u16 b p) fun id p =>
  bindM (BytePacketBuffer.read b p) fun a p =>
  bindM (BytePacketBuffer.read b p) fun bb p =>
  bindM (BytePacketBuffer.read_u16 b p) fun qd p =>
  bindM (BytePacketBuffer.read_u16 b p) fun ans p =>
  bindM (BytePacketBuffer.read_u16 b p) fun ns p =>
  bindM (BytePacketBuffer.read_u16 b p) fun ar p =>
  .ok ⟨id,
       decide (0 < (a &&& 0x80) >>> 7),
       (a &&& 0x78) >>> 3,
       decide (0 < (a &&& 0x4) >>> 2),
       decide (0 < (a &&& 0x2) >>> 1),
       decide (0 < a &&& 0x1),
       decide (0 < (bb &&& 0x80) >>> 7),
       (bb &&& 0x70) >>> 4,
       ResultCode.from_num (bb &&& 0xF),
       qd, ans, ns, ar⟩ p

/-- `QueryType`: record type 1 is `A`, everything else `UNKNOWN(code)`. -/
inductive QueryType where
  | UNKNOWN (code : Nat)
  | A
deriving DecidableEq

/-- `QueryType::from_num`. -/
def QueryType.from_num (n : Nat) : QueryType :=
  if n = 1 then .A else .UNKNOWN n

/-- `DnsQuestion` (`class` is a Lean keyword, so the field is `cls`). -/
structure DnsQuestion where
  name : String
  qtype : QueryType
  cls : Nat
deriving DecidableEq

/-- `DnsQuestion::read`: name, type, class. -/
def DnsQuestion.read (b : Buf) : DecM DnsQuestion := fun p =>
  bindM (BytePacketBuffer.read_qname b p) fun name p =>
  bindM (BytePacketBuffer.read_u16 b p) fun qt p =>
  bindM (BytePacketBuffer.read_u16 b p) fun cls p =>
  .ok ⟨name, QueryType.from_num qt, cls⟩ p

/-- `DnsRecord`: `A` records carry an IPv4 address, `UNKNOWN` records only
the common fields. -/
inductive DnsRecord where
  | UNKNOWN (domain : String) (qtype : QueryType) (cls : Nat) (ttl : Nat) (len : Nat)
  | A (domain : String) (cls : Nat) (ttl : Nat) (len : Nat) (ip : Nat)
deriving DecidableEq

/-- `DnsRecord::from` (`from` is reserved in Lean).  The TTL line embeds the
source expression `(buf.read_u16()? << 8) as u32 | buf.read_u16()? as u32`:
the shift happens at u16 width, hence the explicit `% 65536` before the
widening; the IPv4 line widens before shifting (`as u32` then `<< 16`), so
no truncation occurs there.  The `UNKNOWN` arm consumes no rdata bytes. -/
def DnsRecord.fromBuffer (b : Buf) : DecM DnsRecord := fun p =>
  bindM (BytePacketBuffer.read_qname b p) fun domain p =>
  bindM (BytePacketBuffer.read_u16 b p) fun qt p =>
  bindM (BytePacketBuffer.read_u16 b p) fun cls p =>
  bindM (BytePacketBuffer.read_u16 b p) fun tHi p =>
  bindM (BytePacketBuffer.read_u16 b p) fun tLo p =>
  bindM (BytePacketBuffer.read_u16 b p) fun len p =>
  match QueryType.from_num qt with
  | .A =>
    bindM (BytePacketBuffer.read_u16 b p) fun iHi p =>
    bindM (BytePacketBuffer.read_u16 b p) fun iLo p =>
    .ok (.A domain cls (((tHi <<< 8) % 65536) ||| tLo) len ((iHi <<< 16) ||| iLo)) p
  | .UNKNOWN code =>
    .ok (.UNKNOWN domain (.UNKNOWN code) cls (((tHi <<< 8) % 65536) ||| tLo) len) p

/-- `DnsPacket`. -/
structure DnsPacket where
  header : DnsHeader
  questions : List DnsQuestion
  answers : List DnsRecord
  authorities : List DnsRecord
  additional : List DnsRecord
deriving DecidableEq

/-- The `for _ in 0..qdcount` loop of `DnsPacket::from_buf`: questions in
decode order. -/
def readQuestions (b : Buf) : Nat → DecM (List DnsQuestion)
  | 0 => fun p => .ok [] p
  | n + 1 => fun p =>
    bindM (DnsQuestion.read b p) fun q p =>
    bindM (readQuestions b n p) fun qs p =>
    .ok (q :: qs) p

/-- One `for _ in 0..count { ...push(DnsRecord::from(buf)?) }` loop of
`DnsPacket::from_buf`: records in decode order. -/
def readRecords (b : Buf) : Nat → DecM (List DnsRecord)
  | 0 => fun p => .ok [] p
  | n + 1 => fun p =>
    bindM (DnsRecord.fromBuffer b p) fun r p =>
    bindM (readRecords b n p) fun rs p =>
    .ok (r :: rs) p

/-- `DnsPacket::from_buf`: header, `qdcount` questions, then `anscount`,
`nscount` and `arcount` records — all three record loops push into
`res.answers`, so the answer list is their concatenation and the
`authorities`/`additional` lists stay empty, exactly as in the source. -/
def DnsPacket.from_buf (b : Buf) : DecM DnsPacket := fun p =>
  bindM (DnsHeader.read b p) fun h p =>
  bindM (readQuestions b h.qdcount p) fun qs p =>
  bindM (readRecords b h.anscount p) fun ans p =>
  bindM (readRecords b h.nscount p) fun ns p =>
  bindM (readRecords b h.arcount p) fun ar p =>
  .ok ⟨h, qs, ans ++ ns ++ ar, [], []⟩ p

/-- Buffer built from an explicit byte list, zero-filled beyond it (the
driver zero-initialises the 512-byte array before the partial file read). -/
def bufOfList (l : List Nat) : Buf := fun i => l.getD i 0


/-! ## Basic lemmas about the cursor primitives -/

namespace BytePacketBuffer

/-- A successful `get` means the position was in bounds and returns the raw
byte. -/
theorem get_ok {b : Buf} {pos len : Nat} (h : get b pos = .ok len) :
    pos < 512 ∧ len = b pos := by
  unfold get at h
  split at h
  · exact absurd h (by simp)
  · exact ⟨by omega, (Except.ok.inj h).symm⟩

/-- A successful `get_range` means the range was in bounds. -/
theorem get_range_ok {b : Buf} {start len : Nat} {l : List Nat}
    (h : get_range b start len = .ok l) : start + len < 512 := by
  unfold get_range at h
  split at h
  · exact absurd h (by simp)
  · omega

/-- `read_u16` reads the two bytes at `p` big-endian and leaves the cursor
at `p + 2`. -/
theorem read_u16_ok {b : Buf} {p : Nat} (h : p + 2 ≤ 512) :
    read_u16 b p = .ok ((b p <<< 8) ||| b (p + 1)) (p + 2) := by
  have h1 : ¬ 512 ≤ p := by omega
  have h2 : ¬ 512 ≤ p + 1 := by omega
  simp [read_u16, read, bindM, h1, h2]

/-- The fuel budget of `readQnameLoop` is never exhausted: each iteration
either terminates the loop or decreases the measure
`(maxJumps + 1 - jumps) * 520 + (512 - pos) + 1` (a jump consumes one of
the at most `maxJumps + 1` allowed jumps and can reset the local position
anywhere; a label strictly advances the local position, which stays below
512 while `get` succeeds). -/
theorem readQnameLoop_total (b : Buf) (maxJumps : Nat) :
    ∀ fuel pos sp jumped jumps out delim,
      (maxJumps + 1 - jumps) * 520 + (512 - pos) + 1 ≤ fuel →
      ∃ r, readQnameLoop b maxJumps fuel pos sp jumped jumps out delim = some r := by
  intro fuel
  induction fuel with
  | zero =>
    intro pos sp jumped jumps out delim h
    omega
  | succ fuel ih =>
    intro pos sp jumped jumps out delim h
    rw [readQnameLoop]
    split
    · exact ⟨_, rfl⟩
    next hj =>
      split
      · exact ⟨_, rfl⟩
      next len hget =>
        obtain ⟨hpos, hlen⟩ := get_ok hget
        split
        · -- pointer byte: one more jump
          split
          · exact ⟨_, rfl⟩
          · exact ih _ _ _ _ _ _ (by omega)
        · split
          · exact ⟨_, rfl⟩
          next hz =>
            split
            · exact ⟨_, rfl⟩
            next lab hrange =>
              -- label: the local position strictly advances
              exact ih _ _ _ _ _ _ (by subst hlen; omega)

end BytePacketBuffer

/-! ## Claim theorems: termination, empty names, header example, ranges, TTL -/

open BytePacketBuffer

/-- C9: for every buffer content and every starting position, the
`read_qname` loop terminates within its iteration budget (so the `none`
default in `read_qname` is unreachable), and `DnsPacket::from_buf` returns
either a decoded packet or an error on every input. -/
theorem decoder_terminates (b : Buf) (p : Nat) :
    (∃ r, readQnameCnt b 5 p = some r) ∧
    ((∃ pk p2, DnsPacket.from_buf b p = .ok pk p2) ∨
     (∃ e p2, DnsPacket.from_buf b p = .err e p2)) := by
  constructor
  · exact readQnameLoop_total b 5 qnameFuel p p false 0 "" ""
      (by unfold qnameFuel; omega)
  · cases h : DnsPacket.from_buf b p with
    | ok pk p2 => exact .inl ⟨pk, p2, rfl⟩
    | err e p2 => exact .inr ⟨e, p2, rfl⟩

/-- One unfolding of the loop on a terminating zero byte: the name is empty
and the cursor seeks to `p + 1`. -/
theorem readQnameLoop_zero_byte (b : Buf) (p sp : Nat) (fuel : Nat)
    (hp : p < 512) (h0 : b p = 0) :
    readQnameLoop b 5 (fuel + 1) p sp false 0 "" "" =
      some (.ok "" (p + 1), 0) := by
  have hple : ¬ 512 ≤ p := by omega
  rw [readQnameLoop]
  simp [BytePacketBuffer.get, hple, h0]

/-- C10: if the byte at the cursor is 0 (and in bounds), `read_qname`
succeeds with the empty string and the position advances by exactly 1. -/
theorem empty_name_decode (b : Buf) (p : Nat) (hp : p < 512) (h0 : b p = 0) :
    read_qname b p = .ok "" (p + 1) := by
  unfold read_qname readQnameCnt qnameFuel
  rw [show (8192 : Nat) = 8191 + 1 from rfl, readQnameLoop_zero_byte b p p 8191 hp h0]

/-- Witness for C10 at a concrete buffer: a single zero byte decodes to the
empty name with the cursor at 1. -/
theorem empty_name_decode_witness :
    read_qname (bufOfList [0]) 0 = .ok "" 1 :=
  empty_name_decode (bufOfList [0]) 0 (by omega) rfl

/-- C6: decoding the header bytes `86 2a 01 20 00 01 00 00 00 00 00 00`
yields id 0x862A, a query (not response) with opcode 0, only
recursion-desired set, reserved field 2, rcode NOERROR, qdcount 1 and all
other counts 0, with the cursor left at 12. -/
theorem header_example_decode :
    DnsHeader.read (bufOfList [0x86, 0x2a, 0x01, 0x20, 0, 1, 0, 0, 0, 0, 0, 0]) 0 =
      .ok ⟨0x862A, false, 0, false, false, true, false, 2, .NOERROR, 1, 0, 0, 0⟩ 12 := by
  decide

/-- C7: `get_range start len` fails with `EndOfBuffer` exactly when
`start + len ≥ 512`; consequently a surviving range never contains the
byte at index 511, and an in-range call returns the `len` bytes starting
at `start` (the cursor is untouched: `get_range` does not take the
position at all in this model, mirroring that the source never writes
`self.pos` there). -/
theorem get_range_bound (b : Buf) (start len : Nat) :
    (get_range b start len = .error .endOfBuffer ↔ 512 ≤ start + len) ∧
    (start + len < 512 →
      get_range b start len = .ok ((List.range len).map fun i => b (start + i))) ∧
    (∀ l, get_range b start len = .ok l → ∀ i < len, start + i < 511) := by
  refine ⟨?_, ?_, ?_⟩
  · unfold get_range
    by_cases h : 512 ≤ start + len
    · simp [h]
    · simp [h]
  · intro h
    unfold get_range
    rw [if_neg (by omega)]
  · intro l hl i hi
    have := get_range_ok hl
    omega

/-- Witness for C7: a 3-byte range at the start of a buffer is returned,
and a range reaching index 511 is refused. -/
theorem get_range_bound_witness :
    get_range (bufOfList [7, 8, 9]) 0 3 =
      .ok ((List.range 3).map fun i => bufOfList [7, 8, 9] (0 + i)) ∧
    get_range (bufOfList [7, 8, 9]) 510 2 = .error .endOfBuffer :=
  ⟨(get_range_bound (bufOfList [7, 8, 9]) 0 3).2.1 (by omega),
   (get_range_bound (bufOfList [7, 8, 9]) 510 2).1.mpr (by omega)⟩

/-- C1 (code bug): decoding a record whose four TTL bytes are
`01 02 03 04` (buffer: root name, type 5, class 1, TTL, rdlength 0) yields
ttl = 0x304, not the 32-bit big-endian value 0x01020304 — the source's
`(buf.read_u16()? << 8) as u32` shifts at 16-bit width and discards the
high-order TTL byte before widening. -/
theorem ttl_decode_truncates :
    DnsRecord.fromBuffer (bufOfList [0, 0, 5, 0, 1, 1, 2, 3, 4, 0, 0]) 0 =
      .ok (.UNKNOWN "" (.UNKNOWN 5) 1 0x304 0) 11 ∧ (0x304 : Nat) ≠ 0x01020304 :=
  ⟨by decide, by decide⟩

/-! ## The jump limit (claim C2) -/

namespace BytePacketBuffer

/-- The jump counter never decreases along a run of the loop. -/
theorem readQnameLoop_count_mono (b : Buf) (maxJumps : Nat) :
    ∀ fuel pos sp jumped jumps out delim r j,
      readQnameLoop b maxJumps fuel pos sp jumped jumps out delim = some (r, j) →
      jumps ≤ j := by
  intro fuel
  induction fuel with
  | zero =>
    intro pos sp jumped jumps out delim r j h
    simp [readQnameLoop] at h
  | succ fuel ih =>
    intro pos sp jumped jumps out delim r j h
    rw [readQnameLoop] at h
    split at h
    · simp only [Option.some.injEq, Prod.mk.injEq] at h
      omega
    split at h
    · simp only [Option.some.injEq, Prod.mk.injEq] at h
      omega
    next len hget =>
      split at h
      · split at h
        · simp only [Option.some.injEq, Prod.mk.injEq] at h
          omega
        · have := ih _ _ _ _ _ _ _ _ h
          omega
      · split at h
        · simp only [Option.some.injEq, Prod.mk.injEq] at h
          omega
        · split at h
          · simp only [Option.some.injEq, Prod.mk.injEq] at h
            omega
          · exact ih _ _ _ _ _ _ _ _ h

/-- Runs of the loop under two jump caps coincide as long as the final jump
count stays within the smaller cap: only the `jumps_performed > max_jumps`
check ever consults the cap. -/
theorem readQnameLoop_cap_le (b : Buf) (c1 c2 : Nat) (hc : c1 ≤ c2) :
    ∀ fuel pos sp jumped jumps out delim r j,
      readQnameLoop b c2 fuel pos sp jumped jumps out delim = some (r, j) →
      j ≤ c1 →
      readQnameLoop b c1 fuel pos sp jumped jumps out delim = some (r, j) := by
  intro fuel
  induction fuel with
  | zero =>
    intro pos sp jumped jumps out delim r j h hj
    simp [readQnameLoop] at h
  | succ fuel ih =>
    intro pos sp jumped jumps out delim r j h hj
    have hmono := readQnameLoop_count_mono b c2 (fuel + 1) pos sp jumped jumps out delim r j h
    rw [readQnameLoop] at h
    rw [readQnameLoop]
    split at h
    next hgt =>
      simp only [Option.some.injEq, Prod.mk.injEq] at h
      omega
    next hle =>
      rw [if_neg (by omega)]
      split at h
      · exact h
      next len hget =>
        split at h
        next hptr =>
          rw [if_pos hptr]
          split at h
          · exact h
          · exact ih _ _ _ _ _ _ _ _ h hj
        next hptr =>
          rw [if_neg hptr]
          split at h
          next hz =>
            rw [if_pos hz]
            exact h
          next hz =>
            rw [if_neg hz]
            split at h
            · exact h
            · exact ih _ _ _ _ _ _ _ _ h hj

/-- If a run under the larger cap reaches a jump count beyond the smaller
cap, the run under the smaller cap aborts with `TooManyPointerJumps` the
moment its counter exceeds the cap. -/
theorem readQnameLoop_cap_gt (b : Buf) (c1 c2 : Nat) (hc : c1 ≤ c2) :
    ∀ fuel pos sp jumped jumps out delim r j,
      readQnameLoop b c2 fuel pos sp jumped jumps out delim = some (r, j) →
      c1 < j → jumps ≤ c1 →
      ∃ sp2, readQnameLoop b c1 fuel pos sp jumped jumps out delim =
        some (.err .tooManyPointerJumps sp2, c1 + 1) := by
  intro fuel
  induction fuel with
  | zero =>
    intro pos sp jumped jumps out delim r j h hj hstart
    simp [readQnameLoop] at h
  | succ fuel ih =>
    intro pos sp jumped jumps out delim r j h hj hstart
    rw [readQnameLoop] at h
    rw [readQnameLoop]
    split at h
    next hgt =>
      simp only [Option.some.injEq, Prod.mk.injEq] at h
      omega
    next hle =>
      rw [if_neg (by omega)]
      split at h
      next e hget =>
        simp only [Option.some.injEq, Prod.mk.injEq] at h
        omega
      next len hget =>
        split at h
        next hptr =>
          rw [if_pos hptr]
          split at h
          next e hget2 =>
            simp only [Option.some.injEq, Prod.mk.injEq] at h
            omega
          next b2 hget2 =>
            by_cases hnext : jumps + 1 ≤ c1
            · exact ih _ _ _ _ _ _ _ _ h hj hnext
            · -- the counter just exceeded the smaller cap: next iteration bails
              have hj1 : jumps = c1 := by omega
              subst hj1
              cases fuel with
              | zero =>
                rw [readQnameLoop] at h
                exact absurd h (by simp)
              | succ f =>
                refine ⟨if jumped = true then sp else pos + 2, ?_⟩
                rw [readQnameLoop, if_pos (Nat.lt_succ_self jumps)]
        next hptr =>
          rw [if_neg hptr]
          split at h
          next hz0 =>
            simp only [Option.some.injEq, Prod.mk.injEq] at h
            omega
          next hz0 =>
            rw [if_neg hz0]
            split at h
            next e hrange =>
              simp only [Option.some.injEq, Prod.mk.injEq] at h
              omega
            next lab hrange =>
              exact ih _ _ _ _ _ _ _ _ h hj hstart

end BytePacketBuffer

open BytePacketBuffer

/-- C2: let `j` be the number of pointer jumps the name at `p` makes the
decoder perform, observed by running the same loop with the relaxed cap 6
(`readQnameCnt b 6 p`; the cap is consulted only by the
`jumps_performed > max_jumps` check, so the relaxed run follows the exact
same pointer chain).  If the chain requires more than 5 jumps,
`read_qname` (cap 5) fails with `TooManyPointerJumps`; if it requires
exactly 5 jumps and the name otherwise decodes, `read_qname` succeeds
with the same name and final position. -/
theorem pointer_jump_limit (b : Buf) (p : Nat) (r : DecRes String) (j : Nat)
    (hrun : readQnameCnt b 6 p = some (r, j)) :
    (5 < j → ∃ sp2, read_qname b p = .err .tooManyPointerJumps sp2) ∧
    (j = 5 → ∀ s sp, r = .ok s sp → read_qname b p = .ok s sp) := by
  constructor
  · intro h5
    obtain ⟨sp2, h⟩ := readQnameLoop_cap_gt b 5 6 (by omega) qnameFuel p p false 0 "" ""
      r j hrun h5 (by omega)
    refine ⟨sp2, ?_⟩
    unfold read_qname readQnameCnt
    rw [h]
  · intro h5 s sp hr
    have hle := readQnameLoop_cap_le b 5 6 (by omega) qnameFuel p p false 0 "" ""
      r j hrun (by omega)
    subst hr
    unfold read_qname readQnameCnt
    rw [hle]

/-- A chain of exactly five compression pointers
(0 → 10 → 20 → 30 → 40 → 50) ending in the label `a`. -/
def chainBuf5 : Buf := bufOfList
  [0xC0, 10, 0, 0, 0, 0, 0, 0, 0, 0,
   0xC0, 20, 0, 0, 0, 0, 0, 0, 0, 0,
   0xC0, 30, 0, 0, 0, 0, 0, 0, 0, 0,
   0xC0, 40, 0, 0, 0, 0, 0, 0, 0, 0,
   0xC0, 50, 0, 0, 0, 0, 0, 0, 0, 0,
   1, 97, 0]

/-- A chain of six compression pointers
(0 → 10 → 20 → 30 → 40 → 50 → 60) ending in the label `a`. -/
def chainBuf6 : Buf := bufOfList
  [0xC0, 10, 0, 0, 0, 0, 0, 0, 0, 0,
   0xC0, 20, 0, 0, 0, 0, 0, 0, 0, 0,
   0xC0, 30, 0, 0, 0, 0, 0, 0, 0, 0,
   0xC0, 40, 0, 0, 0, 0, 0, 0, 0, 0,
   0xC0, 50, 0, 0, 0, 0, 0, 0, 0, 0,
   0xC0, 60, 0, 0, 0, 0, 0, 0, 0, 0,
   1, 97, 0]

/-- Witness for C2: the five-pointer chain decodes (to `"a"`, cursor 2),
the six-pointer chain aborts with `TooManyPointerJumps`. -/
theorem pointer_jump_limit_witness :
    read_qname chainBuf5 0 = .ok "a" 2 ∧
    (∃ sp2, read_qname chainBuf6 0 = .err .tooManyPointerJumps sp2) :=
  ⟨(pointer_jump_limit chainBuf5 0 (.ok "a" 2) 5 (by decide)).2 rfl "a" 2 rfl,
   (pointer_jump_limit chainBuf6 0 (.ok "a" 2) 6 (by decide)).1 (by omega)⟩

/-! ## Cursor commit at the first pointer (claim C5) -/

/-- A run of well-formed non-pointer, non-empty labels laid out from `p`
up to `q`: exactly the bytes `read_qname` walks over before reaching the
byte at `q`. -/
inductive LabelChain (b : Buf) : Nat → Nat → Prop where
  | refl (p : Nat) : LabelChain b p p
  | step (p q : Nat) (hptr : b p &&& 0xC0 ≠ 0xC0) (hz : b p ≠ 0)
      (tail : LabelChain b (p + 1 + b p) q) : LabelChain b p q

namespace BytePacketBuffer

/-- Once a jump has occurred, the outer cursor is frozen: a successful run
started with `jumped = true` returns the cursor it was given. -/
theorem readQnameLoop_jumped_sp (b : Buf) (maxJumps : Nat) :
    ∀ fuel pos sp jumps out delim s sp2 j,
      readQnameLoop b maxJumps fuel pos sp true jumps out delim = some (.ok s sp2, j) →
      sp2 = sp := by
  intro fuel
  induction fuel with
  | zero =>
    intro pos sp jumps out delim s sp2 j h
    simp [readQnameLoop] at h
  | succ fuel ih =>
    intro pos sp jumps out delim s sp2 j h
    rw [readQnameLoop] at h
    split at h
    · simp at h
    split at h
    · simp at h
    next len hget =>
      split at h
      next hptr =>
        split at h
        · simp at h
        next b2 hget2 =>
          have := ih _ _ _ _ _ _ _ _ h
          simpa using this
      next hptr =>
        split at h
        next hz =>
          simp only [Option.some.injEq, Prod.mk.injEq, DecRes.ok.injEq,
            if_pos rfl] at h
          exact h.1.2.symm
        next hz =>
          split at h
          · simp at h
          · exact ih _ _ _ _ _ _ _ _ h

/-- Walking a label chain from `p` to a pointer byte at `q`, a successful
`read_qname` run that starts un-jumped commits the outer cursor to `q + 2`:
the first jump seeks there and every later state leaves it frozen. -/
theorem readQnameLoop_chain_sp (b : Buf) (p q : Nat) (hchain : LabelChain b p q) :
    b q &&& 0xC0 = 0xC0 →
    ∀ fuel sp jumps out delim s sp2 j,
      readQnameLoop b 5 fuel p sp false jumps out delim = some (.ok s sp2, j) →
      sp2 = q + 2 := by
  induction hchain with
  | refl p =>
    intro hptrq fuel sp jumps out delim s sp2 j h
    cases fuel with
    | zero => simp [readQnameLoop] at h
    | succ fuel =>
      rw [readQnameLoop] at h
      split at h
      · simp at h
      split at h
      · simp at h
      next len hget =>
        obtain ⟨hpos, hlen⟩ := get_ok hget
        subst hlen
        rw [if_pos hptrq] at h
        split at h
        · simp at h
        next b2 hget2 =>
          have := readQnameLoop_jumped_sp b 5 fuel _ _ _ _ _ _ _ _ h
          simpa using this
  | step p q hptr hz tail ih =>
    intro hptrq fuel sp jumps out delim s sp2 j h
    cases fuel with
    | zero => simp [readQnameLoop] at h
    | succ fuel =>
      rw [readQnameLoop] at h
      split at h
      · simp at h
      split at h
      · simp at h
      next len hget =>
        obtain ⟨hpos, hlen⟩ := get_ok hget
        subst hlen
        rw [if_neg hptr, if_neg hz] at h
        split at h
        · simp at h
        next lab hrange =>
          exact ih hptrq fuel sp jumps _ _ s sp2 j h

end BytePacketBuffer

open BytePacketBuffer in
/-- C5: after `read_qname` successfully decodes a name that consists of
labels from `p` up to a compression pointer at `q` and performs exactly
one jump, the outer cursor equals `q + 2` — immediately past the two
pointer bytes, never a position inside the jumped-to region. -/
theorem single_pointer_final_pos (b : Buf) (p q : Nat) (s : String) (sp : Nat)
    (hchain : LabelChain b p q) (hptr : b q &&& 0xC0 = 0xC0)
    (hrun : readQnameCnt b 5 p = some (.ok s sp, 1)) :
    read_qname b p = .ok s sp ∧ sp = q + 2 := by
  constructor
  · unfold read_qname
    rw [hrun]
  · exact readQnameLoop_chain_sp b p q hchain hptr qnameFuel p 0 "" "" s sp 1 hrun

/-- The name `www` followed by a pointer at position 4 targeting offset 12
(which holds a terminating zero byte). -/
def wwwPtrBuf : Buf := bufOfList [3, 119, 119, 119, 0xC0, 12, 0, 0, 0, 0, 0, 0, 0]

open BytePacketBuffer in
/-- Witness for C5: the pointer byte sits at position 4, so the cursor ends
at 6, not at any position near the jump target 12. -/
theorem single_pointer_final_pos_witness :
    read_qname wwwPtrBuf 0 = .ok "www" 6 ∧ 6 = 4 + 2 :=
  single_pointer_final_pos wwwPtrBuf 0 4 "www" 6
    (.step 0 4 (by decide) (by decide) (.refl 4))
    (by decide) (by decide)

/-! ## UNKNOWN records consume no rdata (claim C4) -/

open BytePacketBuffer in
/-- C4: when the type field does not map to `A`, `DnsRecord::from` returns
with the cursor at `p1 + 10` — name end `p1`, plus type, class, the two
TTL halves and the rdata length (2 bytes each) — regardless of the
declared rdata length: no rdata bytes are consumed, and the decoded
record carries exactly the header fields read from those ten bytes. -/
theorem unknown_record_skips_rdata (b : Buf) (p p1 : Nat) (s : String)
    (hname : read_qname b p = .ok s p1)
    (hroom : p1 + 10 ≤ 512)
    (hq : (b p1 <<< 8) ||| b (p1 + 1) ≠ 1) :
    DnsRecord.fromBuffer b p =
      .ok (.UNKNOWN s (.UNKNOWN ((b p1 <<< 8) ||| b (p1 + 1)))
        ((b (p1 + 2) <<< 8) ||| b (p1 + 3))
        (((((b (p1 + 4) <<< 8) ||| b (p1 + 5)) <<< 8) % 65536) |||
          ((b (p1 + 6) <<< 8) ||| b (p1 + 7)))
        ((b (p1 + 8) <<< 8) ||| b (p1 + 9)))
      (p1 + 10) := by
  have h1 : read_u16 b p1 = .ok ((b p1 <<< 8) ||| b (p1 + 1)) (p1 + 2) :=
    read_u16_ok (by omega)
  have h2 : read_u16 b (p1 + 2) = .ok ((b (p1 + 2) <<< 8) ||| b (p1 + 3)) (p1 + 4) := by
    have h := @read_u16_ok b (p1 + 2) (by omega)
    simpa [Nat.add_assoc] using h
  have h3 : read_u16 b (p1 + 4) = .ok ((b (p1 + 4) <<< 8) ||| b (p1 + 5)) (p1 + 6) := by
    have h := @read_u16_ok b (p1 + 4) (by omega)
    simpa [Nat.add_assoc] using h
  have h4 : read_u16 b (p1 + 6) = .ok ((b (p1 + 6) <<< 8) ||| b (p1 + 7)) (p1 + 8) := by
    have h := @read_u16_ok b (p1 + 6) (by omega)
    simpa [Nat.add_assoc] using h
  have h5 : read_u16 b (p1 + 8) = .ok ((b (p1 + 8) <<< 8) ||| b (p1 + 9)) (p1 + 10) := by
    have h := @read_u16_ok b (p1 + 8) (by omega)
    simpa [Nat.add_assoc] using h
  simp only [DnsRecord.fromBuffer, bindM, hname, h1, h2, h3, h4, h5,
    QueryType.from_num, if_neg hq]

/-- A record at position 0 with root name, type 5, class 1, TTL 60, and a
declared rdata length of 9 (with no rdata bytes behind it). -/
def unknownRecBuf : Buf := bufOfList [0, 0, 5, 0, 1, 0, 0, 0, 60, 0, 9]

open BytePacketBuffer in
/-- Witness for C4: despite `len = 9`, the cursor stops at 11, right after
the length field. -/
theorem unknown_record_skips_rdata_witness :
    DnsRecord.fromBuffer unknownRecBuf 0 = .ok (.UNKNOWN "" (.UNKNOWN 5) 1 60 9) 11 :=
  unknown_record_skips_rdata unknownRecBuf 0 1 "" (by decide) (by decide) (by decide)

/-! ## All records land in the answers list (claim C3) -/

/-- A successful record loop returns as many records as it was asked for. -/
theorem readRecords_length (b : Buf) :
    ∀ n p l p2, readRecords b n p = .ok l p2 → l.length = n := by
  intro n
  induction n with
  | zero =>
    intro p l p2 h
    simp only [readRecords, DecRes.ok.injEq] at h
    obtain ⟨h1, h2⟩ := h
    subst h1
    rfl
  | succ n ih =>
    intro p l p2 h
    simp only [readRecords, bindM] at h
    split at h
    next r p3 heq =>
      split at h
      next rs p4 heq2 =>
        simp only [DecRes.ok.injEq] at h
        obtain ⟨h1, h2⟩ := h
        subst h1
        simp [ih _ _ _ heq2]
      next e p4 heq2 => simp at h
    next e p3 heq => simp at h

/-- C3: whenever `DnsPacket::from_buf` succeeds, the returned packet holds
`anscount + nscount + arcount` records in its answers list (all three
record loops push there, in decode order), while the authorities and
additional lists are empty. -/
theorem from_buf_merges_sections (b : Buf) (p : Nat) (pkt : DnsPacket) (p2 : Nat)
    (h : DnsPacket.from_buf b p = .ok pkt p2) :
    pkt.answers.length = pkt.header.anscount + pkt.header.nscount + pkt.header.arcount ∧
    pkt.authorities = [] ∧ pkt.additional = [] := by
  simp only [DnsPacket.from_buf, bindM] at h
  split at h
  next hd p3 hheq =>
    split at h
    next qs p4 hqeq =>
      split at h
      next ans p5 haeq =>
        split at h
        next ns p6 hneq =>
          split at h
          next ar p7 hreq =>
            simp only [DecRes.ok.injEq] at h
            obtain ⟨h1, h2⟩ := h
            subst h1
            refine ⟨?_, rfl, rfl⟩
            simp [readRecords_length b _ _ _ _ haeq,
              readRecords_length b _ _ _ _ hneq,
              readRecords_length b _ _ _ _ hreq]
            omega
          next e p7 hreq => simp at h
        next e p6 hneq => simp at h
      next e p5 haeq => simp at h
    next e p4 hqeq => simp at h
  next e p3 hheq => simp at h

/-- A packet with qdcount 0 and one record in each of the answer,
authority and additional sections (each record: root name, type 5,
class 1, TTL 0, rdata length 0). -/
def threeRecBuf : Buf := bufOfList
  ([0, 1, 0, 0, 0, 0, 0, 1, 0, 1, 0, 1] ++
   [0, 0, 5, 0, 1, 0, 0, 0, 0, 0, 0] ++
   [0, 0, 5, 0, 1, 0, 0, 0, 0, 0, 0] ++
   [0, 0, 5, 0, 1, 0, 0, 0, 0, 0, 0])

/-- The packet `DnsPacket::from_buf` decodes from `threeRecBuf`: all three
records in `answers`, nothing in `authorities`/`additional`. -/
def threeRecPkt : DnsPacket :=
  ⟨⟨1, false, 0, false, false, false, false, 0, .NOERROR, 0, 1, 1, 1⟩, [],
   [.UNKNOWN "" (.UNKNOWN 5) 1 0 0, .UNKNOWN "" (.UNKNOWN 5) 1 0 0,
    .UNKNOWN "" (.UNKNOWN 5) 1 0 0], [], []⟩

/-- Witness for C3 on `threeRecBuf`. -/
theorem from_buf_merges_sections_witness :
    threeRecPkt.answers.length =
      threeRecPkt.header.anscount + threeRecPkt.header.nscount + threeRecPkt.header.arcount ∧
    threeRecPkt.authorities = [] ∧ threeRecPkt.additional = [] :=
  from_buf_merges_sections threeRecBuf 0 threeRecPkt 45 (by decide)

/-! ## The position bound (claim C8) -/

/-- The cursor position recorded in a result, whether ok or err. -/
def DecRes.posOf {α : Type} : DecRes α → Nat
  | .ok _ p => p
  | .err _ p => p

/-- Position invariant of a cursor operation: started within the 512-byte
buffer, a successful call leaves the cursor within the buffer, and even a
failing call leaves it at most at 513. -/
def PosInv {α : Type} (m : DecM α) : Prop :=
  ∀ p, p ≤ 512 →
    (∀ a p2, m p = .ok a p2 → p2 ≤ 512) ∧
    (∀ e p2, m p = .err e p2 → p2 ≤ 513)

/-- `bindM` preserves the position invariant. -/
theorem PosInv.bindM_inv {α β : Type} {m : DecM α} {f : α → DecM β}
    (hm : PosInv m) (hf : ∀ a, PosInv (f a)) :
    PosInv (fun p => bindM (m p) f) := by
  intro p hp
  rcases hm p hp with ⟨hok, herr⟩
  constructor
  · intro bb p2 h
    simp only [bindM] at h
    split at h
    next a q heq => exact ((hf a) q (hok a q heq)).1 bb p2 h
    next e q heq => simp at h
  · intro e p2 h
    simp only [bindM] at h
    split at h
    next a q heq => exact ((hf a) q (hok a q heq)).2 e p2 h
    next e2 q heq =>
      simp only [DecRes.err.injEq] at h
      obtain ⟨h1, h2⟩ := h
      subst h2
      exact herr e2 q heq

/-- A pure result keeps the cursor in place. -/
theorem ok_posInv {α : Type} (v : α) : PosInv (fun p => (.ok v p : DecRes α)) := by
  intro p hp
  constructor
  · intro a p2 h
    simp only [DecRes.ok.injEq] at h
    omega
  · intro e p2 h
    simp at h

namespace BytePacketBuffer

/-- `read` keeps the cursor within bounds: `p + 1 ≤ 512` on success, `p`
itself on failure. -/
theorem read_posInv (b : Buf) : PosInv (read b) := by
  intro p hp
  constructor
  · intro a p2 h
    unfold read at h
    split at h
    · simp at h
    next hlt =>
      simp only [DecRes.ok.injEq] at h
      omega
  · intro e p2 h
    unfold read at h
    split at h
    · simp only [DecRes.err.injEq] at h
      omega
    · simp at h

/-- `read_u16` keeps the cursor within bounds. -/
theorem read_u16_posInv (b : Buf) : PosInv (read_u16 b) :=
  PosInv.bindM_inv (read_posInv b) fun _ =>
  PosInv.bindM_inv (read_posInv b) fun _ => ok_posInv _

/-- The loop of `read_qname` leaves the outer cursor at most at 513 (and
within the buffer whenever it succeeds), provided it starts within the
buffer.  The only write beyond 512 is the seek to `pos + 2` for a pointer
byte at `pos = 511`, and that run then fails reading the second pointer
byte. -/
theorem readQnameLoop_sp_bound (b : Buf) (maxJumps : Nat) :
    ∀ fuel pos sp jumped jumps out delim r j,
      readQnameLoop b maxJumps fuel pos sp jumped jumps out delim = some (r, j) →
      sp ≤ 512 →
      r.posOf ≤ 513 ∧ (∀ s sp2, r = .ok s sp2 → sp2 ≤ 512) := by
  intro fuel
  induction fuel with
  | zero =>
    intro pos sp jumped jumps out delim r j h hsp
    simp [readQnameLoop] at h
  | succ fuel ih =>
    intro pos sp jumped jumps out delim r j h hsp
    rw [readQnameLoop] at h
    split at h
    next hgt =>
      simp only [Option.some.injEq, Prod.mk.injEq] at h
      obtain ⟨h1, h2⟩ := h
      subst h1
      refine ⟨by simp [DecRes.posOf]; omega, ?_⟩
      intro s sp2 hr
      simp at hr
    next hle =>
      split at h
      next e hget =>
        simp only [Option.some.injEq, Prod.mk.injEq] at h
        obtain ⟨h1, h2⟩ := h
        subst h1
        refine ⟨by simp [DecRes.posOf]; omega, ?_⟩
        intro s sp2 hr
        simp at hr
      next len hget =>
        obtain ⟨hpos, hlen⟩ := get_ok hget
        split at h
        next hptr =>
          split at h
          next e hget2 =>
            simp only [Option.some.injEq, Prod.mk.injEq] at h
            obtain ⟨h1, h2⟩ := h
            subst h1
            refine ⟨?_, ?_⟩
            · cases jumped <;> simp [DecRes.posOf] <;> omega
            · intro s sp2 hr
              simp at hr
          next b2 hget2 =>
            have hpos2 := (get_ok hget2).1
            refine ih _ _ _ _ _ _ _ _ h ?_
            cases jumped <;> simp <;> omega
        next hptr =>
          split at h
          next hz =>
            simp only [Option.some.injEq, Prod.mk.injEq] at h
            obtain ⟨h1, h2⟩ := h
            subst h1
            refine ⟨?_, ?_⟩
            · cases jumped <;> simp [DecRes.posOf] <;> omega
            · intro s sp2 hr
              simp only [DecRes.ok.injEq] at hr
              obtain ⟨hr1, hr2⟩ := hr
              cases jumped <;> simp at hr2 <;> omega
          next hz =>
            split at h
            next e hrange =>
              simp only [Option.some.injEq, Prod.mk.injEq] at h
              obtain ⟨h1, h2⟩ := h
              subst h1
              refine ⟨by simp [DecRes.posOf]; omega, ?_⟩
              intro s sp2 hr
              simp at hr
            next lab hrange =>
              exact ih _ _ _ _ _ _ _ _ h hsp

/-- `read_qname` keeps the cursor at most at 513, and within bounds on
success. -/
theorem read_qname_posInv (b : Buf) : PosInv (read_qname b) := by
  intro p hp
  obtain ⟨⟨r, j⟩, hr⟩ := readQnameLoop_total b 5 qnameFuel p p false 0 "" ""
    (by unfold qnameFuel; omega)
  have hb := readQnameLoop_sp_bound b 5 qnameFuel p p false 0 "" "" r j hr hp
  constructor
  · intro s sp2 h
    unfold read_qname at h
    rw [show readQnameCnt b 5 p = some (r, j) from hr] at h
    exact hb.2 s sp2 h
  · intro e sp2 h
    unfold read_qname at h
    rw [show readQnameCnt b 5 p = some (r, j) from hr] at h
    subst h
    simpa [DecRes.posOf] using hb.1

end BytePacketBuffer

open BytePacketBuffer

/-- `DnsHeader::read` keeps the cursor within bounds. -/
theorem DnsHeader_read_posInv (b : Buf) : PosInv (DnsHeader.read b) := by
  unfold DnsHeader.read
  exact PosInv.bindM_inv (read_u16_posInv b) fun _ =>
    PosInv.bindM_inv (read_posInv b) fun _ =>
    PosInv.bindM_inv (read_posInv b) fun _ =>
    PosInv.bindM_inv (read_u16_posInv b) fun _ =>
    PosInv.bindM_inv (read_u16_posInv b) fun _ =>
    PosInv.bindM_inv (read_u16_posInv b) fun _ =>
    PosInv.bindM_inv (read_u16_posInv b) fun _ => ok_posInv _

/-- `DnsQuestion::read` keeps the cursor within bounds. -/
theorem DnsQuestion_read_posInv (b : Buf) : PosInv (DnsQuestion.read b) := by
  unfold DnsQuestion.read
  exact PosInv.bindM_inv (read_qname_posInv b) fun _ =>
    PosInv.bindM_inv (read_u16_posInv b) fun _ =>
    PosInv.bindM_inv (read_u16_posInv b) fun _ => ok_posInv _

/-- `DnsRecord::from` keeps the cursor within bounds. -/
theorem DnsRecord_fromBuffer_posInv (b : Buf) : PosInv (DnsRecord.fromBuffer b) := by
  unfold DnsRecord.fromBuffer
  refine PosInv.bindM_inv (read_qname_posInv b) fun domain => ?_
  refine PosInv.bindM_inv (read_u16_posInv b) fun qt => ?_
  refine PosInv.bindM_inv (read_u16_posInv b) fun cls => ?_
  refine PosInv.bindM_inv (read_u16_posInv b) fun tHi => ?_
  refine PosInv.bindM_inv (read_u16_posInv b) fun tLo => ?_
  refine PosInv.bindM_inv (read_u16_posInv b) fun len => ?_
  rcases hq : QueryType.from_num qt with code | _
  · simp only [hq]
    exact ok_posInv _
  · simp only [hq]
    exact PosInv.bindM_inv (read_u16_posInv b) fun _ =>
      PosInv.bindM_inv (read_u16_posInv b) fun _ => ok_posInv _

/-- The question loop keeps the cursor within bounds. -/
theorem readQuestions_posInv (b : Buf) : ∀ n, PosInv (readQuestions b n) := by
  intro n
  induction n with
  | zero => exact ok_posInv _
  | succ n ih =>
    unfold readQuestions
    exact PosInv.bindM_inv (DnsQuestion_read_posInv b) fun _ =>
      PosInv.bindM_inv ih fun _ => ok_posInv _

/-- The record loop keeps the cursor within bounds. -/
theorem readRecords_posInv (b : Buf) : ∀ n, PosInv (readRecords b n) := by
  intro n
  induction n with
  | zero => exact ok_posInv _
  | succ n ih =>
    unfold readRecords
    exact PosInv.bindM_inv (DnsRecord_fromBuffer_posInv b) fun _ =>
      PosInv.bindM_inv ih fun _ => ok_posInv _

/-- `DnsPacket::from_buf` keeps the cursor within bounds. -/
theorem from_buf_posInv (b : Buf) : PosInv (DnsPacket.from_buf b) := by
  unfold DnsPacket.from_buf
  exact PosInv.bindM_inv (DnsHeader_read_posInv b) fun hd =>
    PosInv.bindM_inv (readQuestions_posInv b hd.qdcount) fun _ =>
    PosInv.bindM_inv (readRecords_posInv b hd.anscount) fun _ =>
    PosInv.bindM_inv (readRecords_posInv b hd.nscount) fun _ =>
    PosInv.bindM_inv (readRecords_posInv b hd.arcount) fun _ => ok_posInv _

/-- The buffer whose only nonzero byte is a pointer tag at position 511. -/
def ptrAt511Buf : Buf := fun i => if i = 511 then 0xC0 else 0

/-- C8 counterexample: `read_qname` on a pointer byte at position 511 seeks
to 513 before reading the (out-of-bounds) second pointer byte, so the
failing call leaves the position at 513 > 512: the claimed invariant
"position never exceeds 512, including operations that return an error"
does not hold. -/
theorem position_bound_cex :
    read_qname ptrAt511Buf 511 = .err .endOfBuffer 513 ∧ 512 < 513 :=
  ⟨by decide, by decide⟩

/-- C8 (amended): starting from a position at most 512, every decoder
operation leaves the position at most 512 when it succeeds; a failing
operation can leave it at most at 513 (and 513 is reached, see the
counterexample: the jump-seek of `read_qname` past a pointer byte at 511).
Any `read`/`get`/`get_range` attempting to cross the 512-byte boundary
fails with `EndOfBuffer`. -/
theorem position_bound_amended (b : Buf) :
    PosInv (read b) ∧ PosInv (read_u16 b) ∧ PosInv (read_qname b) ∧
    PosInv (DnsHeader.read b) ∧ PosInv (DnsQuestion.read b) ∧
    PosInv (DnsRecord.fromBuffer b) ∧ PosInv (DnsPacket.from_buf b) ∧
    (∀ p, 512 ≤ p → read b p = .err .endOfBuffer p) ∧
    (∀ pos, 512 ≤ pos → get b pos = .error .endOfBuffer) ∧
    (∀ start len, 512 ≤ start + len → get_range b start len = .error .endOfBuffer) :=
  ⟨read_posInv b, read_u16_posInv b, read_qname_posInv b, DnsHeader_read_posInv b,
   DnsQuestion_read_posInv b, DnsRecord_fromBuffer_posInv b, from_buf_posInv b,
   fun p hp => by unfold BytePacketBuffer.read; rw [if_pos hp],
   fun pos hp => by unfold BytePacketBuffer.get; rw [if_pos hp],
   fun s l hp => by unfold BytePacketBuffer.get_range; rw [if_pos hp]⟩

/-- Witness for the amended C8: a concrete in-bounds `read` lands at 1 ≤ 512. -/
theorem position_bound_amended_witness : (1 : Nat) ≤ 512 :=
  ((position_bound_amended (bufOfList [0])).1 0 (by omega)).1 0 1 rfl
